import Mathlib

set_option autoImplicit false

/-!
Shallow embedding of the pgvanniekerk/ezapp orchestration core.

The main model follows `src/pkg/ezapp/run.go`: `Run` starts every runnable
in its own goroutine (`startRunnables`), blocks in `waitForShutdown` on a
three-way `select` (OS signal channel, buffered error channel, done channel
closed when the `sync.WaitGroup` drains), then — unless the chosen reason was
"all runnables completed" — blocks again on `<-done`, and finally invokes the
optional cleanup function, deriving the process exit code.

Concurrency is modelled by a small-step relation over linearized event
traces: each event is one atomic action of some goroutine (a runnable
returning and sending or dropping its error, a signal arriving, the
`select` in `waitForShutdown` firing on one of its ready cases).  A trace is
one possible scheduling; theorems quantify over all valid traces.  A finite
trace "completes" when the select has fired and every runnable has returned
(the `<-done` receive in `Run` has unblocked); `Run` maps a scenario and a
trace to `none` when that trace is not a completed execution, so a scenario
all of whose traces map to `none` is one on which the Go code blocks
forever.

Secondary models: `EzApp.Run` from `src/pkg/ezapp/ezapp.go` (deferred
cleanup that panics on error), the `Stop` loop of `src/internal/app/app.go`,
and `GetCleanupTimeout` from `src/pkg/ezapp/run.go` with Go 64-bit
`strconv.Atoi` and wrapping `time.Duration` multiplication.
-/

namespace Spec2Proof

/-- Go error values relevant to the orchestrator: `context.Canceled`,
`context.DeadlineExceeded`, or an ordinary error with a message. -/
inductive GoErr where
  | canceled
  | deadlineExceeded
  | msg (s : String)
deriving DecidableEq, Repr

/-- Behaviour of one runnable's `Run(ctx)` body, as the orchestrator can
observe it: it may return `nil` on its own (`ok`), return an error on its
own (`fail e`), block until the shared context is cancelled and then return
(`blockUntilCancel res`, where `res = none` models a `nil` return and
`res = some e` models returning `e`, e.g. `context.Canceled`), or never
return at all (`never`). -/
inductive RunnerSpec where
  | ok
  | fail (e : GoErr)
  | blockUntilCancel (res : Option GoErr)
  | never
deriving DecidableEq, Repr

/-- The shutdown reason chosen by the `select` in `waitForShutdown`
(run.go lines 96-111): a delivered OS signal, the first error received from
the error channel, or the done channel having been closed. -/
inductive Reason where
  | sig
  | rerr (e : GoErr)
  | alldone
deriving DecidableEq, Repr

/-- Which of the three `select` cases in `waitForShutdown` fires. -/
inductive Choice where
  | csig
  | cerr
  | cdone
deriving DecidableEq, Repr

/-- One atomic scheduling event.  `ret i send` is runnable `i`'s goroutine
finishing: `r.Run(runCtx)` returns and, when it returned an error, the
goroutine either sends it on the buffered error channel (`send = true`) or
takes the `<-runCtx.Done()` case of its inner select and drops it
(`send = false`, only possible once the context is cancelled); either way
`cancel()` is called on an error and the WaitGroup counter drops.
`sigArrive` is delivery of SIGINT/SIGTERM into `sigChan`; `selectTrig c` is
the `select` of `waitForShutdown` firing on case `c`. -/
inductive Ev where
  | ret (i : Nat) (send : Bool)
  | sigArrive
  | selectTrig (c : Choice)
deriving DecidableEq, Repr

/-- A scenario: the list of runnable behaviours handed to `Run`, whether the
environment ever delivers a termination signal, and the configured cleanup
function (`none` = no cleanup configured; `some res` = cleanup configured
and returning `res` when invoked). -/
structure Scenario where
  runnables : List RunnerSpec
  signalArrives : Bool
  cleanup : Option (Option GoErr)
deriving DecidableEq, Repr

/-- The mutable orchestration state threaded through a trace: whether the
shared context has been cancelled, which runnables have returned, the
contents of the buffered error channel in FIFO send order (`sentLog`; the
single receive in `waitForShutdown` reads its head), signal-channel state,
and the reason chosen by `waitForShutdown` once its select has fired. -/
structure St where
  cancelled : Bool
  returned : List Bool
  sentLog : List GoErr
  sigDelivered : Bool
  sigPending : Bool
  reason : Option Reason
deriving DecidableEq, Repr

/-- Initial state of `startRunnables`: nothing cancelled, nobody returned,
error channel empty, no signal seen, select not yet fired. -/
def initSt (scn : Scenario) : St :=
  { cancelled := false
    returned := scn.runnables.map (fun _ => false)
    sentLog := []
    sigDelivered := false
    sigPending := false
    reason := none }

/-- Mark runnable `i` as returned (its goroutine's deferred `wg.Done()`). -/
def markRet (st : St) (i : Nat) : St :=
  { st with returned := st.returned.set i true }

/-- Runnable `i` returns error `e` and its goroutine sends `e` on the
buffered error channel and calls `cancel()` (run.go lines 69-77). -/
def sendErr (st : St) (i : Nat) (e : GoErr) : St :=
  { st with
    returned := st.returned.set i true
    sentLog := st.sentLog ++ [e]
    cancelled := true }

/-- Transition for a `ret i send` event, following the goroutine body in
`startRunnables` (run.go lines 67-78): an `ok` runnable just returns; a
`fail e` runnable may return at any time and must send `e` unless the
context is already cancelled (the buffered send case of its select is always
ready, the `<-runCtx.Done()` case only once cancelled); a `blockUntilCancel`
runnable can only return once the context is cancelled; a `never` runnable
has no return event. -/
def retStep (scn : Scenario) (st : St) (i : Nat) (send : Bool) : Option St :=
  match scn.runnables[i]?, st.returned[i]? with
  | some sp, some false =>
    match sp, send, st.cancelled with
    | RunnerSpec.ok, false, _ => some (markRet st i)
    | RunnerSpec.fail e, true, _ => some (sendErr st i e)
    | RunnerSpec.fail _, false, true => some (markRet st i)
    | RunnerSpec.blockUntilCancel none, false, true => some (markRet st i)
    | RunnerSpec.blockUntilCancel (some e), true, true => some (sendErr st i e)
    | RunnerSpec.blockUntilCancel (some _), false, true => some (markRet st i)
    | _, _, _ => none
  | _, _ => none

/-- Transition for signal delivery into the buffered `sigChan`
(run.go lines 166-167); only the first delivery is modelled, later signals
change nothing the orchestrator observes. -/
def sigStep (scn : Scenario) (st : St) : Option St :=
  match scn.signalArrives, st.sigDelivered with
  | true, false => some { st with sigDelivered := true, sigPending := true }
  | _, _ => none

/-- Transition for the `select` in `waitForShutdown` (run.go lines 96-111)
firing on case `c`.  It can fire only once, only on a ready case: a pending
signal (that branch calls `cancel()`), a non-empty error channel (the
receive takes the FIFO head), or the done channel being closed, i.e. every
runnable having returned. -/
def selStep (st : St) (c : Choice) : Option St :=
  match st.reason with
  | some _ => none
  | none =>
    match c with
    | Choice.csig =>
      match st.sigPending with
      | true => some { st with sigPending := false, cancelled := true, reason := some Reason.sig }
      | false => none
    | Choice.cerr =>
      match st.sentLog.head? with
      | some e => some { st with reason := some (Reason.rerr e) }
      | none => none
    | Choice.cdone =>
      match st.returned.all (fun b => b) with
      | true => some { st with reason := some Reason.alldone }
      | false => none

/-- One small step of the orchestration. -/
def step (scn : Scenario) (st : St) : Ev → Option St
  | Ev.ret i send => retStep scn st i send
  | Ev.sigArrive => sigStep scn st
  | Ev.selectTrig c => selStep st c

/-- Run a list of events from a given state; `none` when some event is not
enabled (the schedule is invalid). -/
def runFrom (scn : Scenario) : St → List Ev → Option St
  | st, [] => some st
  | st, e :: evs =>
    match step scn st e with
    | none => none
    | some st2 => runFrom scn st2 evs

/-- Run a trace from the initial state. -/
def runTrace (scn : Scenario) (evs : List Ev) : Option St :=
  runFrom scn (initSt scn) evs

/-- Whether every runnable has returned, i.e. the WaitGroup has drained and
`close(done)` has happened. -/
def St.allReturned (st : St) : Bool :=
  st.returned.all (fun b => b)

/-- Exit code chosen by `waitForShutdown` for each reason
(run.go lines 96-111): 0 for a signal, 1 for a runnable error, 0 when all
runnables completed. -/
def baseExit : Reason → Nat
  | Reason.sig => 0
  | Reason.rerr _ => 1
  | Reason.alldone => 0

/-- Observable outcome of a completed `Run`: the final process exit code,
the shutdown reason (`none` only for the no-runnables early exit), how many
times the cleanup function ran, and whether the shared context had been
cancelled at the moment cleanup started. -/
structure RunResult where
  exitCode : Nat
  reason : Option Reason
  cleanupRuns : Nat
  cancelledBeforeCleanup : Bool
deriving DecidableEq, Repr

/-- Final phase of `Run` after the `<-done` wait (run.go lines 185-198):
invoke the cleanup function if configured; a cleanup error overrides the
exit code with 1, a successful cleanup leaves it unchanged. -/
def finish (scn : Scenario) (st : St) (r : Reason) : RunResult :=
  match scn.cleanup with
  | none =>
    { exitCode := baseExit r, reason := some r, cleanupRuns := 0
      cancelledBeforeCleanup := st.cancelled }
  | some none =>
    { exitCode := baseExit r, reason := some r, cleanupRuns := 1
      cancelledBeforeCleanup := st.cancelled }
  | some (some _) =>
    { exitCode := 1, reason := some r, cleanupRuns := 1
      cancelledBeforeCleanup := st.cancelled }

/-- Model of `Run` (run.go lines 133-199) evaluated on one scheduling trace.
With no runnables, `Run` prints and exits 0 immediately, before signal
handling, the wait and the cleanup call (lines 155-159).  Otherwise the
trace must drive `waitForShutdown` to a reason and every runnable to its
return (the `<-done` receive on line 179, already implied when the reason is
`alldone`); only then does cleanup run and the process exit.  A trace that
has not reached that point yields `none`: it is not a completed execution,
and a scenario in which no trace completes is one on which the Go code
blocks forever. -/
def Run (scn : Scenario) (evs : List Ev) : Option RunResult :=
  match scn.runnables with
  | [] =>
    some { exitCode := 0, reason := none, cleanupRuns := 0, cancelledBeforeCleanup := false }
  | _ :: _ =>
    match runTrace scn evs with
    | none => none
    | some st =>
      match st.reason with
      | none => none
      | some r =>
        match st.returned.all (fun b => b) with
        | true => some (finish scn st r)
        | false => none

/-- The part of `Run` after `startRunnables`: given the state the trace
reached, either the run has completed (select fired and every runnable
returned) and the cleanup/exit phase produces a result, or the run is still
blocked (`none`).  `Run` on a non-empty runnable list is exactly this
applied to the trace's final state. -/
def afterTrace (scn : Scenario) : Option St → Option RunResult
  | none => none
  | some st =>
    match st.reason with
    | none => none
    | some r =>
      match st.returned.all (fun b => b) with
      | true => some (finish scn st r)
      | false => none

/-- Whether the configured cleanup function returns an error. -/
def Scenario.cleanupErrs (scn : Scenario) : Bool :=
  match scn.cleanup with
  | some (some _) => true
  | _ => false

/-- Whether an event is the `select` of `waitForShutdown` firing. -/
def Ev.isSelect : Ev → Bool
  | Ev.selectTrig _ => true
  | _ => false

/-- Whether no runnable spontaneously returns `context.Canceled` without
having observed cancellation (the situation the spec's "distinguished
cancelled outcome" wording presupposes: `context.Canceled` is produced by
runnables reacting to cancellation, not invented out of thin air). -/
def noSpontaneousCancel (scn : Scenario) : Bool :=
  scn.runnables.all (fun sp => !(sp == RunnerSpec.fail GoErr.canceled))

/-! Model of `EzApp.Run` from `src/pkg/ezapp/ezapp.go` (lines 68-122). -/

/-- One runnable as `EzApp.Run` observes it: what its `Run(ctx)` call
returns, and what its `HandleError` method returns when invoked. -/
structure EzRunnable where
  runRes : Option GoErr
  handleRes : Option GoErr
deriving DecidableEq, Repr

/-- The `EzApp` struct (ezapp.go lines 48-52): the runnables, the optional
app-level error handler (`none` = no handler configured, `some r` = a
handler that returns `r`), and what the configured cleanup function returns
when the deferred call invokes it. -/
structure EzApp where
  runnables : List EzRunnable
  errHandlerRes : Option (Option GoErr)
  cleanupRes : Option GoErr
deriving DecidableEq, Repr

/-- How `EzApp.Run` can end: return normally, or propagate a panic raised by
the deferred cleanup block. -/
inductive EzOutcome where
  | returned
  | panicked (e : GoErr)
deriving DecidableEq, Repr

/-- Whether the goroutine of one runnable ends up calling `cancel()`
(ezapp.go lines 96-116): errors equal to `context.Canceled` are skipped
entirely; otherwise the error goes through `HandleError`, then — only when
an app-level handler is configured — through it, and `cancel()` is called
only if an error survives the whole chain. -/
def ezCancelCaused (app : EzApp) (r : EzRunnable) : Bool :=
  match r.runRes with
  | none => false
  | some e =>
    match e == GoErr.canceled with
    | true => false
    | false =>
      match r.handleRes with
      | none => false
      | some _ =>
        match app.errHandlerRes with
        | none => false
        | some none => false
        | some (some _) => true

/-- Observable result of `EzApp.Run`: whether the shared context got
cancelled by some runnable's surviving error, and how the call ended.  The
deferred block (ezapp.go lines 71-76) runs after `wg.Wait()` and panics with
the cleanup error when the cleanup function returns one. -/
structure EzRunResult where
  ctxCancelled : Bool
  outcome : EzOutcome
deriving DecidableEq, Repr

/-- Model of `EzApp.Run` (ezapp.go lines 68-122). -/
def EzApp.Run (app : EzApp) : EzRunResult :=
  { ctxCancelled := app.runnables.any (fun r => ezCancelCaused app r)
    outcome :=
      match app.cleanupRes with
      | some e => EzOutcome.panicked e
      | none => EzOutcome.returned }

/-! Model of the shutdown loop of `App.Run` from `src/internal/app/app.go`
(lines 85-98), the only variant with a configured `shutdownTimeout`. -/

/-- How the sequential `runnable.Stop(ctx)` loop of `internal/app.App.Run`
ends: either every `Stop` returned `nil`, or the loop hit the first `Stop`
error and called `os.Exit(1)`, having logged the forced-shutdown message
exactly when that error is `context.DeadlineExceeded` (the
`shutdownTimeout` deadline of the context elapsed). -/
inductive StopOutcome where
  | allStopped
  | exitedOne (forcedLogged : Bool)
deriving DecidableEq, Repr

/-- Model of app.go lines 90-98, given what each runnable's `Stop(ctx)` call
returns under the `shutdownTimeout`-bounded context. -/
def stopAll : List (Option GoErr) → StopOutcome
  | [] => StopOutcome.allStopped
  | none :: rest => stopAll rest
  | some e :: _ => StopOutcome.exitedOne (e == GoErr.deadlineExceeded)

/-! Model of `GetCleanupTimeout` from `src/pkg/ezapp/run.go` (lines 23-36),
with Go 64-bit integer semantics made explicit. -/

/-- The constant 2^63, the magnitude bound of Go's 64-bit `int`. -/
def two63 : Int := 9223372036854775808

/-- Two's-complement wrap-around of a mathematical integer into the signed
64-bit range, which is what Go's defined signed-overflow behaviour produces
for `int64` arithmetic. -/
def wrap64 (z : Int) : Int :=
  (z + two63) % (2 * two63) - two63

/-- Accumulate decimal digits; `none` as soon as a non-digit appears. -/
def parseDigitsAux : Nat → List Char → Option Nat
  | acc, [] => some acc
  | acc, c :: cs =>
    match c.isDigit with
    | true => parseDigitsAux (acc * 10 + (c.toNat - 48)) cs
    | false => none

/-- Parse a non-empty all-digit character list into a natural number. -/
def parseDigits : List Char → Option Nat
  | [] => none
  | c :: cs => parseDigitsAux 0 (c :: cs)

/-- Model of Go's `strconv.Atoi` on a 64-bit platform: an optional single
`+`/`-` sign followed by at least one decimal digit, rejected (error) when
the value is outside the signed 64-bit range. -/
def Atoi (s : String) : Option Int :=
  let cs := s.toList
  let signed : Bool × List Char :=
    match cs with
    | '+' :: rest => (false, rest)
    | '-' :: rest => (true, rest)
    | _ => (false, cs)
  match parseDigits signed.2 with
  | none => none
  | some n =>
    let z : Int := if signed.1 then -(n : Int) else (n : Int)
    if z < -two63 ∨ two63 - 1 < z then none else some z

/-- Model of `GetCleanupTimeout` (run.go lines 23-36).  The argument is the
environment binding of `EZAPP_TERM_TIMEOUT` (`none` = unset; Go's
`os.Getenv` returns `""` for an unset variable, so unset and empty
coincide).  The result is the returned `time.Duration` in nanoseconds:
15 seconds when the variable is empty or `strconv.Atoi` fails, otherwise
`time.Duration(timeoutSec) * time.Second`, a wrapping 64-bit product. -/
def GetCleanupTimeout (env : Option String) : Int :=
  let timeoutStr := env.getD ""
  if timeoutStr = "" then 15 * 1000000000
  else
    match Atoi timeoutStr with
    | none => 15 * 1000000000
    | some n => wrap64 (n * 1000000000)

/-! Structural lemmas about the small-step semantics. -/

theorem markRet_cancelled (st : St) (i : Nat) : (markRet st i).cancelled = st.cancelled := rfl

theorem markRet_sentLog (st : St) (i : Nat) : (markRet st i).sentLog = st.sentLog := rfl

theorem markRet_reason (st : St) (i : Nat) : (markRet st i).reason = st.reason := rfl

theorem markRet_sigPending (st : St) (i : Nat) : (markRet st i).sigPending = st.sigPending := rfl

theorem markRet_returned (st : St) (i : Nat) :
    (markRet st i).returned = st.returned.set i true := rfl

theorem sendErr_cancelled (st : St) (i : Nat) (e : GoErr) : (sendErr st i e).cancelled = true := rfl

theorem sendErr_sentLog (st : St) (i : Nat) (e : GoErr) :
    (sendErr st i e).sentLog = st.sentLog ++ [e] := rfl

theorem sendErr_reason (st : St) (i : Nat) (e : GoErr) : (sendErr st i e).reason = st.reason := rfl

theorem sendErr_sigPending (st : St) (i : Nat) (e : GoErr) :
    (sendErr st i e).sigPending = st.sigPending := rfl

theorem sendErr_returned (st : St) (i : Nat) (e : GoErr) :
    (sendErr st i e).returned = st.returned.set i true := rfl

/-- Case analysis for a successful `retStep` transition. -/
theorem retStep_some {scn : Scenario} {st : St} {i : Nat} {send : Bool} {st2 : St}
    (h : retStep scn st i send = some st2) :
    st.returned[i]? = some false ∧
    ((scn.runnables[i]? = some RunnerSpec.ok ∧ send = false ∧ st2 = markRet st i) ∨
     (∃ e, scn.runnables[i]? = some (RunnerSpec.fail e) ∧ send = true ∧ st2 = sendErr st i e) ∨
     (∃ e, scn.runnables[i]? = some (RunnerSpec.fail e) ∧ send = false ∧
       st.cancelled = true ∧ st2 = markRet st i) ∨
     (scn.runnables[i]? = some (RunnerSpec.blockUntilCancel none) ∧ send = false ∧
       st.cancelled = true ∧ st2 = markRet st i) ∨
     (∃ e, scn.runnables[i]? = some (RunnerSpec.blockUntilCancel (some e)) ∧ send = true ∧
       st.cancelled = true ∧ st2 = sendErr st i e) ∨
     (∃ e, scn.runnables[i]? = some (RunnerSpec.blockUntilCancel (some e)) ∧ send = false ∧
       st.cancelled = true ∧ st2 = markRet st i)) := by
  unfold retStep at h
  split at h
  · rename_i sp hg hr
    refine ⟨hr, ?_⟩
    split at h
    · obtain rfl := Option.some.inj h
      exact Or.inl ⟨hg, rfl, rfl⟩
    · rename_i e
      obtain rfl := Option.some.inj h
      exact Or.inr (Or.inl ⟨e, hg, rfl, rfl⟩)
    · rename_i e heq
      obtain rfl := Option.some.inj h
      exact Or.inr (Or.inr (Or.inl ⟨e, hg, rfl, heq, rfl⟩))
    · rename_i heq
      obtain rfl := Option.some.inj h
      exact Or.inr (Or.inr (Or.inr (Or.inl ⟨hg, rfl, heq, rfl⟩)))
    · rename_i e heq
      obtain rfl := Option.some.inj h
      exact Or.inr (Or.inr (Or.inr (Or.inr (Or.inl ⟨e, hg, rfl, heq, rfl⟩))))
    · rename_i e heq
      obtain rfl := Option.some.inj h
      exact Or.inr (Or.inr (Or.inr (Or.inr (Or.inr ⟨e, hg, rfl, heq, rfl⟩))))
    · exact Option.noConfusion h
  · exact Option.noConfusion h

/-- Case analysis for a successful `sigStep` transition. -/
theorem sigStep_some {scn : Scenario} {st : St} {st2 : St}
    (h : sigStep scn st = some st2) :
    scn.signalArrives = true ∧ st.sigDelivered = false ∧
    st2 = { st with sigDelivered := true, sigPending := true } := by
  unfold sigStep at h
  cases hs : scn.signalArrives <;> cases hd : st.sigDelivered <;> rw [hs, hd] at h <;>
    simp only [Option.some.injEq] at h
  · exact absurd h (by simp)
  · exact absurd h (by simp)
  · exact ⟨rfl, rfl, h.symm⟩
  · exact absurd h (by simp)

/-- Case analysis for a successful `selStep` transition. -/
theorem selStep_some {st : St} {c : Choice} {st2 : St}
    (h : selStep st c = some st2) :
    st.reason = none ∧
    ((c = Choice.csig ∧ st.sigPending = true ∧
       st2 = { st with sigPending := false, cancelled := true, reason := some Reason.sig }) ∨
     (∃ e, c = Choice.cerr ∧ st.sentLog.head? = some e ∧
       st2 = { st with reason := some (Reason.rerr e) }) ∨
     (c = Choice.cdone ∧ st.returned.all (fun b => b) = true ∧
       st2 = { st with reason := some Reason.alldone })) := by
  unfold selStep at h
  cases hr : st.reason <;> rw [hr] at h
  · refine ⟨rfl, ?_⟩
    cases c
    · cases hp : st.sigPending <;> rw [hp] at h
      · exact absurd h (by simp)
      · simp only [Option.some.injEq] at h
        exact Or.inl ⟨rfl, rfl, h.symm⟩
    · cases he : st.sentLog.head? <;> rw [he] at h
      · exact absurd h (by simp)
      case some e =>
        simp only [Option.some.injEq] at h
        exact Or.inr (Or.inl ⟨e, rfl, rfl, h.symm⟩)
    · cases ha : st.returned.all (fun b => b) <;> rw [ha] at h
      · exact absurd h (by simp)
      · simp only [Option.some.injEq] at h
        exact Or.inr (Or.inr ⟨rfl, rfl, h.symm⟩)
  · exact absurd h (by simp)

/-- Reachability invariant of the orchestration state.  The heart of it: an
error can sit at the head of the error channel only if some runnable of
spec `fail` put it there (a `blockUntilCancel` runnable can only send after
cancellation, and before the select fires cancellation itself requires an
earlier send by a `fail` runnable), the reason chosen by the select for a
runnable error is always the first error ever sent, and the context is
cancelled as soon as anything was sent or a signal/error reason was chosen. -/
structure StInv (scn : Scenario) (st : St) : Prop where
  lenEq : st.returned.length = scn.runnables.length
  neverNotRet : ∀ i : Nat, scn.runnables[i]? = some RunnerSpec.never → st.returned[i]? = some false
  sentCancel : st.sentLog ≠ [] → st.cancelled = true
  preCancelSent : st.reason = none → st.cancelled = true → st.sentLog ≠ []
  preHeadFail : st.reason = none → ∀ e : GoErr, st.sentLog.head? = some e →
    ∃ i : Nat, scn.runnables[i]? = some (RunnerSpec.fail e)
  reasonFail : ∀ e : GoErr, st.reason = some (Reason.rerr e) →
    ∃ i : Nat, scn.runnables[i]? = some (RunnerSpec.fail e)
  reasonHead : ∀ e : GoErr, st.reason = some (Reason.rerr e) → st.sentLog.head? = some e
  reasonSigCancel : st.reason = some Reason.sig → st.cancelled = true
  reasonErrCancel : ∀ e : GoErr, st.reason = some (Reason.rerr e) → st.cancelled = true

/-- The initial state satisfies the invariant. -/
theorem inv_init (scn : Scenario) : StInv scn (initSt scn) := by
  constructor
  · simp [initSt]
  · intro i hi
    simp only [initSt]
    rw [List.getElem?_map]
    simp [hi]
  · intro h; exact absurd rfl h
  · intro _ h; exact absurd h (by simp [initSt])
  · intro _ e h; exact absurd h (by simp [initSt])
  · intro e h; exact absurd h (by simp [initSt])
  · intro e h; exact absurd h (by simp [initSt])
  · intro h; exact absurd h (by simp [initSt])
  · intro e h; exact absurd h (by simp [initSt])

/-- `markRet` preserves the invariant provided the runnable being marked is
not a `never` runnable. -/
theorem inv_markRet {scn : Scenario} {st : St} {i : Nat} {sp : RunnerSpec}
    (hg : scn.runnables[i]? = some sp) (hsp : sp ≠ RunnerSpec.never)
    (hinv : StInv scn st) : StInv scn (markRet st i) := by
  constructor
  · simp [markRet, List.length_set, hinv.lenEq]
  · intro j hj
    have hij : i ≠ j := by
      intro hij
      rw [hij] at hg
      rw [hg] at hj
      exact hsp (Option.some.inj hj)
    simp only [markRet]
    rw [List.getElem?_set_ne hij]
    exact hinv.neverNotRet j hj
  · exact hinv.sentCancel
  · exact hinv.preCancelSent
  · exact hinv.preHeadFail
  · exact hinv.reasonFail
  · exact hinv.reasonHead
  · exact hinv.reasonSigCancel
  · exact hinv.reasonErrCancel

/-- `sendErr` preserves the invariant when the sender is a `fail` runnable. -/
theorem inv_sendErr_fail {scn : Scenario} {st : St} {i : Nat} {e : GoErr}
    (hg : scn.runnables[i]? = some (RunnerSpec.fail e))
    (hinv : StInv scn st) : StInv scn (sendErr st i e) := by
  constructor
  · simp [sendErr, List.length_set, hinv.lenEq]
  · intro j hj
    have hij : i ≠ j := by
      intro hij
      rw [hij] at hg
      rw [hg] at hj
      exact RunnerSpec.noConfusion (Option.some.inj hj)
    simp only [sendErr]
    rw [List.getElem?_set_ne hij]
    exact hinv.neverNotRet j hj
  · intro _; rfl
  · intro _ _; simp [sendErr]
  · intro hr e0 he0
    simp only [sendErr, List.head?_append] at he0
    cases hsl : st.sentLog.head? with
    | none =>
      rw [hsl] at he0
      simp only [Option.none_or, List.head?_cons, Option.some.injEq] at he0
      exact ⟨i, he0 ▸ hg⟩
    | some e1 =>
      rw [hsl] at he0
      simp only [Option.or_some, Option.some.injEq] at he0
      exact hinv.preHeadFail hr e0 (he0 ▸ hsl)
  · exact hinv.reasonFail
  · intro e0 hr
    have h0 := hinv.reasonHead e0 hr
    simp only [sendErr, List.head?_append, h0, Option.or_some]
  · intro _; rfl
  · intro _ _; rfl

/-- `sendErr` preserves the invariant when the context is already cancelled
(the case of a `blockUntilCancel` runnable sending after cancellation). -/
theorem inv_sendErr_cancelled {scn : Scenario} {st : St} {i : Nat} {e : GoErr} {sp : RunnerSpec}
    (hg : scn.runnables[i]? = some sp) (hsp : sp ≠ RunnerSpec.never)
    (hc : st.cancelled = true)
    (hinv : StInv scn st) : StInv scn (sendErr st i e) := by
  constructor
  · simp [sendErr, List.length_set, hinv.lenEq]
  · intro j hj
    have hij : i ≠ j := by
      intro hij
      rw [hij] at hg
      rw [hg] at hj
      exact hsp (Option.some.inj hj)
    simp only [sendErr]
    rw [List.getElem?_set_ne hij]
    exact hinv.neverNotRet j hj
  · intro _; rfl
  · intro _ _; simp [sendErr]
  · intro hr e0 he0
    have hne : st.sentLog ≠ [] := hinv.preCancelSent hr hc
    cases hsl : st.sentLog.head? with
    | none =>
      rw [List.head?_eq_none_iff] at hsl
      exact absurd hsl hne
    | some e1 =>
      simp only [sendErr, List.head?_append, hsl, Option.or_some] at he0
      exact hinv.preHeadFail hr e0 (he0 ▸ hsl)
  · exact hinv.reasonFail
  · intro e0 hr
    have h0 := hinv.reasonHead e0 hr
    simp only [sendErr, List.head?_append, h0, Option.or_some]
  · intro _; rfl
  · intro _ _; rfl

/-- `sigStep` preserves the invariant. -/
theorem inv_sigStep {scn : Scenario} {st st2 : St}
    (h : sigStep scn st = some st2) (hinv : StInv scn st) : StInv scn st2 := by
  obtain ⟨-, -, rfl⟩ := sigStep_some h
  constructor
  · exact hinv.lenEq
  · exact hinv.neverNotRet
  · exact hinv.sentCancel
  · exact hinv.preCancelSent
  · exact hinv.preHeadFail
  · exact hinv.reasonFail
  · exact hinv.reasonHead
  · exact hinv.reasonSigCancel
  · exact hinv.reasonErrCancel

/-- `selStep` preserves the invariant. -/
theorem inv_selStep {st st2 : St} {c : Choice}
    {scn : Scenario}
    (h : selStep st c = some st2) (hinv : StInv scn st) : StInv scn st2 := by
  obtain ⟨hr, hcase⟩ := selStep_some h
  rcases hcase with ⟨-, hp, rfl⟩ | ⟨e, -, he, rfl⟩ | ⟨-, ha, rfl⟩
  · constructor
    · exact hinv.lenEq
    · exact hinv.neverNotRet
    · intro _; rfl
    · intro h0; exact absurd h0 (by simp)
    · intro h0; exact absurd h0 (by simp)
    · intro e0 h0; exact absurd (Option.some.inj h0) (by simp)
    · intro e0 h0; exact absurd (Option.some.inj h0) (by simp)
    · intro _; rfl
    · intro _ _; rfl
  · constructor
    · exact hinv.lenEq
    · exact hinv.neverNotRet
    · exact hinv.sentCancel
    · intro h0; exact absurd h0 (by simp)
    · intro h0; exact absurd h0 (by simp)
    · intro e0 h0
      have he0 : e0 = e := by
        have := Option.some.inj h0
        exact (Reason.rerr.inj this.symm)
      subst he0
      exact hinv.preHeadFail hr e0 he
    · intro e0 h0
      have he0 : e0 = e := by
        have := Option.some.inj h0
        exact (Reason.rerr.inj this.symm)
      subst he0
      exact he
    · intro h0; exact absurd (Option.some.inj h0) (by simp)
    · intro e0 h0
      refine hinv.sentCancel ?_
      intro hnil
      rw [hnil] at he
      exact Option.noConfusion he
  · constructor
    · exact hinv.lenEq
    · exact hinv.neverNotRet
    · exact hinv.sentCancel
    · intro h0; exact absurd h0 (by simp)
    · intro h0; exact absurd h0 (by simp)
    · intro e0 h0; exact absurd (Option.some.inj h0) (by simp)
    · intro e0 h0; exact absurd (Option.some.inj h0) (by simp)
    · intro h0; exact absurd (Option.some.inj h0) (by simp)
    · intro e0 h0; exact absurd (Option.some.inj h0) (by simp)

/-- A single step preserves the invariant. -/
theorem inv_step {scn : Scenario} {st st2 : St} {e : Ev}
    (h : step scn st e = some st2) (hinv : StInv scn st) : StInv scn st2 := by
  cases e with
  | ret i send =>
    obtain ⟨-, hcase⟩ := retStep_some h
    rcases hcase with ⟨hg, -, rfl⟩ | ⟨e, hg, -, rfl⟩ | ⟨e, hg, -, -, rfl⟩ |
      ⟨hg, -, -, rfl⟩ | ⟨e, hg, -, hc, rfl⟩ | ⟨e, hg, -, hc, rfl⟩
    · exact inv_markRet hg (by simp) hinv
    · exact inv_sendErr_fail hg hinv
    · exact inv_markRet hg (by simp) hinv
    · exact inv_markRet hg (by simp) hinv
    · exact inv_sendErr_cancelled hg (by simp) hc hinv
    · exact inv_markRet hg (by simp) hinv
  | sigArrive => exact inv_sigStep h hinv
  | selectTrig c => exact inv_selStep h hinv

/-- Running any event list preserves the invariant. -/
theorem inv_runFrom {scn : Scenario} :
    ∀ (evs : List Ev) (st st2 : St), runFrom scn st evs = some st2 → StInv scn st → StInv scn st2 := by
  intro evs
  induction evs with
  | nil =>
    intro st st2 h hinv
    exact (Option.some.inj h) ▸ hinv
  | cons e evs ih =>
    intro st st2 h hinv
    unfold runFrom at h
    cases hs : step scn st e with
    | none => rw [hs] at h; exact Option.noConfusion h
    | some st1 =>
      rw [hs] at h
      exact ih st1 st2 h (inv_step hs hinv)

/-- Every state reachable from the initial state satisfies the invariant. -/
theorem inv_runTrace {scn : Scenario} {evs : List Ev} {st : St}
    (h : runTrace scn evs = some st) : StInv scn st :=
  inv_runFrom evs (initSt scn) st h (inv_init scn)

/-- Splitting a trace at an append. -/
theorem runFrom_append (scn : Scenario) (l1 l2 : List Ev) (st : St) :
    runFrom scn st (l1 ++ l2) = (runFrom scn st l1).bind (fun st1 => runFrom scn st1 l2) := by
  induction l1 generalizing st with
  | nil => rfl
  | cons e l1 ih =>
    simp only [List.cons_append, runFrom]
    cases hs : step scn st e with
    | none => rfl
    | some st1 => exact ih st1

/-- A single step never un-sets or changes an already chosen reason. -/
theorem step_reason_mono {scn : Scenario} {st st2 : St} {e : Ev} {r : Reason}
    (h : step scn st e = some st2) (hr : st.reason = some r) : st2.reason = some r := by
  cases e with
  | ret i send =>
    obtain ⟨-, hcase⟩ := retStep_some h
    rcases hcase with ⟨-, -, rfl⟩ | ⟨e, -, -, rfl⟩ | ⟨e, -, -, -, rfl⟩ |
      ⟨-, -, -, rfl⟩ | ⟨e, -, -, -, rfl⟩ | ⟨e, -, -, -, rfl⟩ <;> exact hr
  | sigArrive =>
    obtain ⟨-, -, rfl⟩ := sigStep_some h
    exact hr
  | selectTrig c =>
    obtain ⟨h0, -⟩ := selStep_some h
    rw [hr] at h0
    exact Option.noConfusion h0

/-- A single step never flips `cancelled` back to `false`. -/
theorem step_cancel_mono {scn : Scenario} {st st2 : St} {e : Ev}
    (h : step scn st e = some st2) (hc : st.cancelled = true) : st2.cancelled = true := by
  cases e with
  | ret i send =>
    obtain ⟨-, hcase⟩ := retStep_some h
    rcases hcase with ⟨-, -, rfl⟩ | ⟨e, -, -, rfl⟩ | ⟨e, -, -, -, rfl⟩ |
      ⟨-, -, -, rfl⟩ | ⟨e, -, -, -, rfl⟩ | ⟨e, -, -, -, rfl⟩
    · exact hc
    · rfl
    · exact hc
    · exact hc
    · rfl
    · exact hc
  | sigArrive =>
    obtain ⟨-, -, rfl⟩ := sigStep_some h
    exact hc
  | selectTrig c =>
    obtain ⟨-, hcase⟩ := selStep_some h
    rcases hcase with ⟨-, -, rfl⟩ | ⟨e, -, -, rfl⟩ | ⟨-, -, rfl⟩
    · rfl
    · exact hc
    · exact hc

/-- An already chosen reason survives the run of any further event list. -/
theorem runFrom_reason_mono {scn : Scenario} :
    ∀ (evs : List Ev) (st st2 : St) (r : Reason),
      runFrom scn st evs = some st2 → st.reason = some r → st2.reason = some r := by
  intro evs
  induction evs with
  | nil =>
    intro st st2 r h hr
    exact (Option.some.inj h) ▸ hr
  | cons e evs ih =>
    intro st st2 r h hr
    unfold runFrom at h
    cases hs : step scn st e with
    | none => rw [hs] at h; exact Option.noConfusion h
    | some st1 =>
      rw [hs] at h
      exact ih st1 st2 r h (step_reason_mono hs hr)

/-- Relation between a successful step and the select count: a select step
requires no reason yet and produces one; any other step leaves the reason
field unchanged. -/
theorem step_select_count {scn : Scenario} {st st2 : St} {e : Ev}
    (h : step scn st e = some st2) :
    (Ev.isSelect e = true → st.reason = none ∧ st2.reason.isSome = true) ∧
    (Ev.isSelect e = false → st2.reason = st.reason) := by
  cases e with
  | ret i send =>
    refine ⟨fun hfalse => Bool.noConfusion hfalse, fun _ => ?_⟩
    obtain ⟨-, hcase⟩ := retStep_some h
    rcases hcase with ⟨-, -, rfl⟩ | ⟨e, -, -, rfl⟩ | ⟨e, -, -, -, rfl⟩ |
      ⟨-, -, -, rfl⟩ | ⟨e, -, -, -, rfl⟩ | ⟨e, -, -, -, rfl⟩ <;> rfl
  | sigArrive =>
    refine ⟨fun hfalse => Bool.noConfusion hfalse, fun _ => ?_⟩
    obtain ⟨-, -, rfl⟩ := sigStep_some h
    rfl
  | selectTrig c =>
    refine ⟨fun _ => ?_, fun hfalse => Bool.noConfusion hfalse⟩
    obtain ⟨h0, hcase⟩ := selStep_some h
    refine ⟨h0, ?_⟩
    rcases hcase with ⟨-, -, rfl⟩ | ⟨e, -, -, rfl⟩ | ⟨-, -, rfl⟩ <;> rfl

/-- The number of select events a valid trace can contain is exactly the
number of reasons it produces: one when the final state has a reason, zero
otherwise. -/
theorem runFrom_select_count {scn : Scenario} :
    ∀ (evs : List Ev) (st st2 : St),
      runFrom scn st evs = some st2 →
      evs.countP Ev.isSelect + (if st.reason.isSome then 1 else 0) =
        (if st2.reason.isSome then 1 else 0) := by
  intro evs
  induction evs with
  | nil =>
    intro st st2 h
    rw [Option.some.inj h]
    simp [List.countP_nil]
  | cons e evs ih =>
    intro st st2 h
    unfold runFrom at h
    cases hs : step scn st e with
    | none => rw [hs] at h; exact Option.noConfusion h
    | some st1 =>
      rw [hs] at h
      have htail := ih st1 st2 h
      rw [List.countP_cons]
      obtain ⟨hsel, hnot⟩ := step_select_count hs
      cases hse : Ev.isSelect e with
      | true =>
        obtain ⟨h0, h1⟩ := hsel hse
        rw [h0]
        rw [h1] at htail
        simp only [Option.isSome_none, Bool.false_eq_true, if_false, if_true,
          Nat.add_zero] at *
        omega
      | false =>
        have h1 := hnot hse
        rw [h1] at htail
        simp only [Bool.false_eq_true, if_false, Nat.add_zero] at *
        omega

/-- A state in which some runnable has not returned fails the done check. -/
theorem allReturned_false_of_unreturned {st : St} {i : Nat}
    (h : st.returned[i]? = some false) : st.returned.all (fun b => b) = false := by
  cases ha : st.returned.all (fun b => b) with
  | false => rfl
  | true =>
    have hmem : false ∈ st.returned := List.getElem?_mem h
    have := List.all_eq_true.mp ha false hmem
    exact Bool.noConfusion this

/-- The reason recorded in the final result is the reason the select chose. -/
theorem finish_reason (scn : Scenario) (st : St) (r : Reason) :
    (finish scn st r).reason = some r := by
  unfold finish
  cases scn.cleanup with
  | none => rfl
  | some o => cases o <;> rfl

/-- The cancellation flag recorded at cleanup time is the state's flag. -/
theorem finish_cancelled (scn : Scenario) (st : St) (r : Reason) :
    (finish scn st r).cancelledBeforeCleanup = st.cancelled := by
  unfold finish
  cases scn.cleanup with
  | none => rfl
  | some o => cases o <;> rfl

/-- The final exit code: 1 when the cleanup function errs, the reason's base
exit code otherwise. -/
theorem finish_exitCode (scn : Scenario) (st : St) (r : Reason) :
    (finish scn st r).exitCode = (if scn.cleanupErrs = true then 1 else baseExit r) := by
  unfold finish Scenario.cleanupErrs
  cases hc : scn.cleanup with
  | none => rfl
  | some o => cases o <;> rfl

/-- How many times the cleanup function runs on a completed path: once when
configured, never otherwise. -/
theorem finish_cleanupRuns (scn : Scenario) (st : St) (r : Reason) :
    (finish scn st r).cleanupRuns = (if scn.cleanup.isSome = true then 1 else 0) := by
  unfold finish
  cases hc : scn.cleanup with
  | none => rfl
  | some o => cases o <;> rfl

/-- A reason can only carry exit code 1 if it is a runnable-error reason. -/
theorem baseExit_eq_one {r : Reason} (h : baseExit r = 1) : ∃ e, r = Reason.rerr e := by
  cases r with
  | sig => exact Nat.noConfusion h
  | rerr e => exact ⟨e, rfl⟩
  | alldone => exact Nat.noConfusion h

/-- State predicate maintained in scenarios whose runnables all succeed on
their own and where no signal ever arrives: the error channel stays empty,
no signal is pending, and the only reason the select can ever choose is
`alldone`. -/
def OkSt (st : St) : Prop :=
  st.sentLog = [] ∧ st.sigPending = false ∧
    (st.reason = none ∨ st.reason = some Reason.alldone)

/-- One step preserves `OkSt` under the all-ok, no-signal hypotheses. -/
theorem okSt_step {scn : Scenario} {st st2 : St} {e : Ev}
    (hok : ∀ sp ∈ scn.runnables, sp = RunnerSpec.ok)
    (hsig : scn.signalArrives = false)
    (h : step scn st e = some st2) (hst : OkSt st) : OkSt st2 := by
  obtain ⟨hlog, hpend, hreason⟩ := hst
  cases e with
  | ret i send =>
    obtain ⟨-, hcase⟩ := retStep_some h
    rcases hcase with ⟨hg, -, rfl⟩ | ⟨e, hg, -, rfl⟩ | ⟨e, hg, -, -, rfl⟩ |
      ⟨hg, -, -, rfl⟩ | ⟨e, hg, -, -, rfl⟩ | ⟨e, hg, -, -, rfl⟩
    · exact ⟨hlog, hpend, hreason⟩
    · exact absurd (hok _ (List.getElem?_mem hg)) (by simp)
    · exact absurd (hok _ (List.getElem?_mem hg)) (by simp)
    · exact absurd (hok _ (List.getElem?_mem hg)) (by simp)
    · exact absurd (hok _ (List.getElem?_mem hg)) (by simp)
    · exact absurd (hok _ (List.getElem?_mem hg)) (by simp)
  | sigArrive =>
    obtain ⟨hs, -, -⟩ := sigStep_some h
    rw [hsig] at hs
    exact Bool.noConfusion hs
  | selectTrig c =>
    obtain ⟨-, hcase⟩ := selStep_some h
    rcases hcase with ⟨-, hp, rfl⟩ | ⟨e, -, he, rfl⟩ | ⟨-, -, rfl⟩
    · rw [hpend] at hp
      exact Bool.noConfusion hp
    · rw [hlog] at he
      exact Option.noConfusion he
    · exact ⟨hlog, hpend, Or.inr rfl⟩

/-- Any reachable state of an all-ok, no-signal scenario satisfies `OkSt`. -/
theorem okSt_runFrom {scn : Scenario}
    (hok : ∀ sp ∈ scn.runnables, sp = RunnerSpec.ok)
    (hsig : scn.signalArrives = false) :
    ∀ (evs : List Ev) (st st2 : St),
      runFrom scn st evs = some st2 → OkSt st → OkSt st2 := by
  intro evs
  induction evs with
  | nil =>
    intro st st2 h hst
    exact (Option.some.inj h) ▸ hst
  | cons e evs ih =>
    intro st st2 h hst
    unfold runFrom at h
    cases hs : step scn st e with
    | none => rw [hs] at h; exact Option.noConfusion h
    | some st1 =>
      rw [hs] at h
      exact ih st1 st2 h (okSt_step hok hsig hs hst)

/-- Setting an entry to `true` preserves an all-`true` list. -/
theorem all_set_true {l : List Bool} {i : Nat} (h : l.all (fun b => b) = true) :
    (l.set i true).all (fun b => b) = true := by
  rw [List.all_eq_true] at h ⊢
  intro x hx
  rcases List.mem_or_eq_of_mem_set hx with hmem | rfl
  · exact h x hmem
  · rfl

/-- Trigger soundness invariant: a pending signal was delivered, a chosen
signal reason means a signal had been delivered, and a chosen all-completed
reason means every runnable had (and still has) returned — i.e. whatever
reason the select chose corresponds to a trigger that had actually fired by
selection time. -/
structure TrigInv (st : St) : Prop where
  pendDelivered : st.sigPending = true → st.sigDelivered = true
  reasonSigDelivered : st.reason = some Reason.sig → st.sigDelivered = true
  reasonDoneReturned : st.reason = some Reason.alldone → st.returned.all (fun b => b) = true

/-- The initial state satisfies the trigger soundness invariant. -/
theorem trigInv_init (scn : Scenario) : TrigInv (initSt scn) :=
  ⟨fun h => Bool.noConfusion h, fun h => Option.noConfusion h, fun h => Option.noConfusion h⟩

/-- One step preserves the trigger soundness invariant. -/
theorem trigInv_step {scn : Scenario} {st st2 : St} {e : Ev}
    (h : step scn st e = some st2) (ht : TrigInv st) : TrigInv st2 := by
  obtain ⟨h1, h2, h3⟩ := ht
  cases e with
  | ret i send =>
    obtain ⟨-, hcase⟩ := retStep_some h
    rcases hcase with ⟨-, -, rfl⟩ | ⟨e, -, -, rfl⟩ | ⟨e, -, -, -, rfl⟩ |
      ⟨-, -, -, rfl⟩ | ⟨e, -, -, -, rfl⟩ | ⟨e, -, -, -, rfl⟩ <;>
      exact ⟨h1, h2, fun hd => all_set_true (h3 hd)⟩
  | sigArrive =>
    obtain ⟨-, -, rfl⟩ := sigStep_some h
    exact ⟨fun _ => rfl, fun _ => rfl, h3⟩
  | selectTrig c =>
    obtain ⟨-, hcase⟩ := selStep_some h
    rcases hcase with ⟨-, hp, rfl⟩ | ⟨e, -, he, rfl⟩ | ⟨-, ha, rfl⟩
    · exact ⟨fun hf => Bool.noConfusion hf, fun _ => h1 hp,
        fun hd => Reason.noConfusion (Option.some.inj hd)⟩
    · exact ⟨h1, fun hs => Reason.noConfusion (Option.some.inj hs),
        fun hd => Reason.noConfusion (Option.some.inj hd)⟩
    · exact ⟨h1, fun hs => Reason.noConfusion (Option.some.inj hs), fun _ => ha⟩

/-- Every reachable state satisfies the trigger soundness invariant. -/
theorem trigInv_runFrom {scn : Scenario} :
    ∀ (evs : List Ev) (st st2 : St),
      runFrom scn st evs = some st2 → TrigInv st → TrigInv st2 := by
  intro evs
  induction evs with
  | nil =>
    intro st st2 h ht
    exact (Option.some.inj h) ▸ ht
  | cons e evs ih =>
    intro st st2 h ht
    unfold runFrom at h
    cases hs : step scn st e with
    | none => rw [hs] at h; exact Option.noConfusion h
    | some st1 =>
      rw [hs] at h
      exact ih st1 st2 h (trigInv_step hs ht)

/-- On a non-empty runnable list, `Run` is `afterTrace` of the trace run. -/
theorem Run_nonempty {scn : Scenario} (hne : scn.runnables ≠ []) (evs : List Ev) :
    Run scn evs = afterTrace scn (runTrace scn evs) := by
  unfold Run afterTrace
  cases hl : scn.runnables with
  | nil => exact absurd hl hne
  | cons a l => rfl

/-- A still-blocked state produces no result: no reason chosen yet. -/
theorem afterTrace_reason_none {scn : Scenario} {st : St} (h : st.reason = none) :
    afterTrace scn (some st) = none := by
  simp only [afterTrace]
  rw [h]

/-- A still-blocked state produces no result: some runnable not returned. -/
theorem afterTrace_not_all {scn : Scenario} {st : St} {r : Reason}
    (hr : st.reason = some r) (h : st.returned.all (fun b => b) = false) :
    afterTrace scn (some st) = none := by
  simp only [afterTrace]
  rw [hr, h]

/-- A completed state produces the finish-phase result. -/
theorem afterTrace_complete {scn : Scenario} {st : St} {r : Reason}
    (hr : st.reason = some r) (h : st.returned.all (fun b => b) = true) :
    afterTrace scn (some st) = some (finish scn st r) := by
  simp only [afterTrace]
  rw [hr, h]

/-- Inversion of a successful `Run` on a non-empty runnable list: the trace
reached a state where the select had fired and every runnable had returned,
and the result is the finish phase of that state. -/
theorem Run_some_inv {scn : Scenario} {evs : List Ev} {r : RunResult}
    (hne : scn.runnables ≠ []) (h : Run scn evs = some r) :
    ∃ (st : St) (r0 : Reason),
      runTrace scn evs = some st ∧ st.reason = some r0 ∧
      st.returned.all (fun b => b) = true ∧ r = finish scn st r0 := by
  rw [Run_nonempty hne] at h
  cases ht : runTrace scn evs with
  | none => rw [ht] at h; exact Option.noConfusion h
  | some st =>
    rw [ht] at h
    cases hr : st.reason with
    | none => rw [afterTrace_reason_none hr] at h; exact Option.noConfusion h
    | some r0 =>
      cases hall : st.returned.all (fun b => b) with
      | false => rw [afterTrace_not_all hr hall] at h; exact Option.noConfusion h
      | true =>
        rw [afterTrace_complete hr hall] at h
        exact ⟨st, r0, rfl, hr, hall, (Option.some.inj h).symm⟩

/-- A run whose trace can never reach a state with every runnable returned
does not complete: `Run` yields `none` on every such trace. -/
theorem Run_eq_none_of_unreturned {scn : Scenario} {evs : List Ev}
    (hne : scn.runnables ≠ [])
    (h : ∀ st : St, runTrace scn evs = some st → st.returned.all (fun b => b) = false) :
    Run scn evs = none := by
  rw [Run_nonempty hne]
  cases ht : runTrace scn evs with
  | none => rfl
  | some st =>
    cases hr : st.reason with
    | none => exact afterTrace_reason_none hr
    | some r => exact afterTrace_not_all hr (h st ht)

/-! Claim theorems. -/

/-- C1: the claim fails on run.go.  With a single runnable that never
returns and a delivered termination signal, the wait in `Run` is a bare
`<-done` channel receive with no shutdown timer, so it never unblocks: no
finite schedule completes the run (first conjunct) even though the select
does fire and choose the signal reason, i.e. cancellation is issued (second
conjunct); and the model faithfully has no deadline mechanism, so no
`ShutdownDeadlineExceeded` condition is ever reported.  The timeout-bounded
wait the claim describes exists only in the `internal/app` variant, whose
`Stop` loop exits and logs a forced shutdown when a `Stop` call returns
`context.DeadlineExceeded` (third conjunct). -/
theorem c1_wait_never_unblocks :
    (∀ evs : List Ev,
      Run { runnables := [RunnerSpec.never], signalArrives := true,
            cleanup := some none } evs = none) ∧
    (∃ (evs : List Ev) (st : St),
      runTrace { runnables := [RunnerSpec.never], signalArrives := true,
                 cleanup := some none } evs = some st ∧
      st.reason = some Reason.sig) ∧
    stopAll [some GoErr.deadlineExceeded] = StopOutcome.exitedOne true := by
  refine ⟨?_, ?_, by decide⟩
  · intro evs
    refine Run_eq_none_of_unreturned (by decide) ?_
    intro st ht
    exact allReturned_false_of_unreturned ((inv_runTrace ht).neverNotRet 0 rfl)
  · refine ⟨[Ev.sigArrive, Ev.selectTrig Choice.csig],
      { cancelled := true, returned := [false], sentLog := [],
        sigDelivered := true, sigPending := false, reason := some Reason.sig },
      ?_, rfl⟩
    rfl

/-- C2 counterexample: with zero runnables and a configured cleanup
function, `Run` prints "No runnables to execute" and exits 0 immediately;
the cleanup function runs zero times, not exactly once as the claim states
for the zero-runner run. -/
theorem c2_zero_runnables_skip_cleanup :
    Run { runnables := [], signalArrives := false, cleanup := some none } [] =
      some { exitCode := 0, reason := none, cleanupRuns := 0,
             cancelledBeforeCleanup := false } ∧
    (Run { runnables := [], signalArrives := false, cleanup := some none } []).map
        RunResult.cleanupRuns ≠ some 1 :=
  ⟨rfl, by decide⟩

/-- C2 (amended): on every completed orchestration run with at least one
runnable and a configured cleanup function, the cleanup function is invoked
exactly once, whatever the shutdown reason and outcome; a run with zero
runnables exits before the cleanup call. -/
theorem c2_cleanup_exactly_once (scn : Scenario) (evs : List Ev) (r : RunResult)
    (hne : scn.runnables ≠ []) (hcl : scn.cleanup.isSome = true)
    (h : Run scn evs = some r) : r.cleanupRuns = 1 := by
  obtain ⟨st, r0, -, -, -, rfl⟩ := Run_some_inv hne h
  rw [finish_cleanupRuns, hcl]
  rfl

/-- C2 witness: a run with one succeeding runnable and a configured cleanup
function invokes the cleanup exactly once. -/
theorem c2_cleanup_exactly_once_witness :
    ({ exitCode := 0, reason := some Reason.alldone, cleanupRuns := 1,
       cancelledBeforeCleanup := false } : RunResult).cleanupRuns = 1 :=
  c2_cleanup_exactly_once
    { runnables := [RunnerSpec.ok], signalArrives := false, cleanup := some none }
    [Ev.ret 0 false, Ev.selectTrig Choice.cdone] _ (by decide) (by decide) rfl

/-- C3 counterexample: the reason is not determined by whichever of the
three triggers fires first.  With two immediately-failing runnables, after
the first event the runner-failure trigger has already fired (the error
channel is non-empty) while the done trigger has not (not every runnable
has returned); yet the schedule in which the select then fires on the done
case is valid and yields the reason AllCompleted, not the earlier-fired
RunnerFailure. -/
theorem c3_later_trigger_chosen :
    runTrace { runnables := [RunnerSpec.fail (GoErr.msg "a"), RunnerSpec.fail (GoErr.msg "b")],
               signalArrives := false, cleanup := none } [Ev.ret 0 true] =
      some { cancelled := true, returned := [true, false], sentLog := [GoErr.msg "a"],
             sigDelivered := false, sigPending := false, reason := none } ∧
    ([GoErr.msg "a"] : List GoErr) ≠ [] ∧
    ([true, false] : List Bool).all (fun b => b) = false ∧
    runTrace { runnables := [RunnerSpec.fail (GoErr.msg "a"), RunnerSpec.fail (GoErr.msg "b")],
               signalArrives := false, cleanup := none }
        [Ev.ret 0 true, Ev.ret 1 true, Ev.selectTrig Choice.cdone] =
      some { cancelled := true, returned := [true, true],
             sentLog := [GoErr.msg "a", GoErr.msg "b"],
             sigDelivered := false, sigPending := false, reason := some Reason.alldone } ∧
    (some Reason.alldone : Option Reason) ≠ some (Reason.rerr (GoErr.msg "a")) :=
  ⟨rfl, by decide, rfl, rfl, by decide⟩

/-- C3 (amended): exactly one ShutdownReason per run, chosen by the single
firing of the `waitForShutdown` select among the triggers that are ready at
that moment; triggers that fire after the selection (further runnable
returns or errors, a later signal) never change it, and the chosen reason
always corresponds to a trigger that had actually fired: a signal reason
means a signal had been delivered, a runner-error reason is the first error
sent by a runnable that failed of its own accord, and an all-completed
reason means every runnable had returned.  What the original claim adds —
that the select necessarily picks the trigger that fired first — is false
on run.go: when several cases are ready the select picks among them
arbitrarily (see the counterexample, the same race as C4). -/
theorem c3_one_reason_stable (scn : Scenario) (evs : List Ev) (st : St) (r : Reason)
    (h : runTrace scn evs = some st) (hr : st.reason = some r) :
    evs.countP Ev.isSelect = 1 ∧
    (∀ (evs2 : List Ev) (st2 : St),
      runTrace scn (evs ++ evs2) = some st2 → st2.reason = some r) ∧
    (r = Reason.sig → st.sigDelivered = true) ∧
    (∀ e : GoErr, r = Reason.rerr e →
      st.sentLog.head? = some e ∧
      ∃ i : Nat, scn.runnables[i]? = some (RunnerSpec.fail e)) ∧
    (r = Reason.alldone → st.returned.all (fun b => b) = true) := by
  have htr : TrigInv st := trigInv_runFrom evs (initSt scn) st h (trigInv_init scn)
  have hinv := inv_runTrace h
  refine ⟨?_, ?_, ?_, ?_, ?_⟩
  · have hc := runFrom_select_count evs (initSt scn) st h
    rw [hr] at hc
    simp only [initSt, Option.isSome_none, Option.isSome_some, Bool.false_eq_true,
      if_false, if_true, Nat.add_zero] at hc
    exact hc
  · intro evs2 st2 h2
    rw [runTrace, runFrom_append] at h2
    rw [runTrace] at h
    rw [h, Option.some_bind] at h2
    exact runFrom_reason_mono evs2 st st2 r h2 hr
  · intro hrs
    subst hrs
    exact htr.reasonSigDelivered hr
  · intro e hre
    subst hre
    exact ⟨hinv.reasonHead e hr, hinv.reasonFail e hr⟩
  · intro hrd
    subst hrd
    exact htr.reasonDoneReturned hr

/-- C3 witness: a failing runnable fixes the reason as its error — the
first error sent, originating from a genuinely failing runnable — and a
signal delivered afterwards (a later trigger of a different kind) leaves
the reason unchanged. -/
theorem c3_one_reason_stable_witness :
    ([Ev.ret 0 true, Ev.selectTrig Choice.cerr] : List Ev).countP Ev.isSelect = 1 ∧
    ({ cancelled := true, returned := [true], sentLog := [GoErr.msg "boom"],
       sigDelivered := true, sigPending := true,
       reason := some (Reason.rerr (GoErr.msg "boom")) } : St).reason =
      some (Reason.rerr (GoErr.msg "boom")) ∧
    ([GoErr.msg "boom"] : List GoErr).head? = some (GoErr.msg "boom") := by
  have h := c3_one_reason_stable
    { runnables := [RunnerSpec.fail (GoErr.msg "boom")], signalArrives := true,
      cleanup := none }
    [Ev.ret 0 true, Ev.selectTrig Choice.cerr]
    { cancelled := true, returned := [true], sentLog := [GoErr.msg "boom"],
      sigDelivered := false, sigPending := false,
      reason := some (Reason.rerr (GoErr.msg "boom")) }
    (Reason.rerr (GoErr.msg "boom")) rfl rfl
  exact ⟨h.1, h.2.1 [Ev.sigArrive] _ rfl, (h.2.2.2.1 (GoErr.msg "boom") rfl).1⟩

/-- A runnable-error reason always carries exit code 1, whatever the cleanup
function does. -/
theorem finish_exitCode_rerr (scn : Scenario) (st : St) (e : GoErr) :
    (finish scn st (Reason.rerr e)).exitCode = 1 := by
  rw [finish_exitCode]
  cases scn.cleanupErrs <;> rfl

/-- C4: the first error sent on the error channel is the one the select
retains — whenever a run's reason is a runnable error `e`, `e` is the head
of the send log, the reported result carries exactly that single error and
exit code 1, and the other failures influence nothing (first conjunct).
But the claim's universal guarantee fails on a race that contradicts
run.go's own test `TestRunWithRunnableError`: when every runnable (failing
ones included) has already returned by the time the select runs, the
`<-done` case is also ready and may be chosen, in which case the run
reports "all runnables completed successfully" with exit code 0 and both
errors are discarded entirely (second conjunct). -/
theorem c4_first_error_retained_and_race :
    (∀ (scn : Scenario) (evs : List Ev) (st : St) (e : GoErr),
      runTrace scn evs = some st → st.reason = some (Reason.rerr e) →
      st.sentLog.head? = some e ∧
      (∀ r : RunResult, Run scn evs = some r →
        r.reason = some (Reason.rerr e) ∧ r.exitCode = 1)) ∧
    Run { runnables := [RunnerSpec.fail (GoErr.msg "a"), RunnerSpec.fail (GoErr.msg "b")],
          signalArrives := false, cleanup := none }
        [Ev.ret 0 true, Ev.ret 1 true, Ev.selectTrig Choice.cdone] =
      some { exitCode := 0, reason := some Reason.alldone, cleanupRuns := 0,
             cancelledBeforeCleanup := true } := by
  constructor
  · intro scn evs st e h hr
    have inv := inv_runTrace h
    refine ⟨inv.reasonHead e hr, ?_⟩
    intro r hrun
    have hne : scn.runnables ≠ [] := by
      obtain ⟨i, hi⟩ := inv.reasonFail e hr
      intro hnil
      rw [hnil] at hi
      exact Option.noConfusion ((List.getElem?_nil) ▸ hi)
    obtain ⟨st2, r0, ht2, hr0, hall, rfl⟩ := Run_some_inv hne hrun
    have hst : st2 = st := Option.some.inj (ht2.symm.trans h)
    have hr0e : r0 = Reason.rerr e := by
      rw [hst, hr] at hr0
      exact (Option.some.inj hr0).symm
    rw [hr0e]
    exact ⟨finish_reason scn st2 _, finish_exitCode_rerr scn st2 e⟩
  · rfl

/-- C4 witness: with two failing runnables, a schedule in which the select
fires while the second failure is still pending surfaces exactly the first
error with exit code 1. -/
theorem c4_first_error_retained_witness :
    ([GoErr.msg "a", GoErr.msg "b"] : List GoErr).head? = some (GoErr.msg "a") ∧
    ({ exitCode := 1, reason := some (Reason.rerr (GoErr.msg "a")), cleanupRuns := 0,
       cancelledBeforeCleanup := true } : RunResult).reason =
        some (Reason.rerr (GoErr.msg "a")) ∧
    ({ exitCode := 1, reason := some (Reason.rerr (GoErr.msg "a")), cleanupRuns := 0,
       cancelledBeforeCleanup := true } : RunResult).exitCode = 1 := by
  have h := c4_first_error_retained_and_race.1
    { runnables := [RunnerSpec.fail (GoErr.msg "a"), RunnerSpec.fail (GoErr.msg "b")],
      signalArrives := false, cleanup := none }
    [Ev.ret 0 true, Ev.ret 1 true, Ev.selectTrig Choice.cerr]
    { cancelled := true, returned := [true, true], sentLog := [GoErr.msg "a", GoErr.msg "b"],
      sigDelivered := false, sigPending := false,
      reason := some (Reason.rerr (GoErr.msg "a")) }
    (GoErr.msg "a") rfl rfl
  obtain ⟨h2, h3⟩ := h.2 _ rfl
  exact ⟨h.1, h2, h3⟩

/-- C5 counterexample: when every runnable succeeds on its own, run.go
reaches the cleanup call without ever cancelling the context
(`runnablesCancel()` and the deferred `cancel()` run only after cleanup),
so the cleanup hook begins before any cancellation has been issued. -/
theorem c5_cleanup_before_cancellation :
    Run { runnables := [RunnerSpec.ok], signalArrives := false, cleanup := some none }
        [Ev.ret 0 false, Ev.selectTrig Choice.cdone] =
      some { exitCode := 0, reason := some Reason.alldone, cleanupRuns := 1,
             cancelledBeforeCleanup := false } ∧
    (Run { runnables := [RunnerSpec.ok], signalArrives := false, cleanup := some none }
        [Ev.ret 0 false, Ev.selectTrig Choice.cdone]).map
        RunResult.cancelledBeforeCleanup ≠ some true :=
  ⟨rfl, by decide⟩

/-- C5 (amended): the cleanup phase of a completed run always begins only
after every runnable has returned (run.go has no forced-timeout path at
all), and when the shutdown reason is a signal or a runnable failure,
cancellation has been issued before cleanup begins; only in the
all-completed case does run.go reach the cleanup call without cancelling. -/
theorem c5_cleanup_after_drain (scn : Scenario) (evs : List Ev) (r : RunResult)
    (hne : scn.runnables ≠ []) (h : Run scn evs = some r) :
    (∃ st : St, runTrace scn evs = some st ∧ st.returned.all (fun b => b) = true ∧
      r.cancelledBeforeCleanup = st.cancelled) ∧
    (r.reason = some Reason.sig → r.cancelledBeforeCleanup = true) ∧
    (∀ e : GoErr, r.reason = some (Reason.rerr e) → r.cancelledBeforeCleanup = true) := by
  obtain ⟨st, r0, ht, hr0, hall, rfl⟩ := Run_some_inv hne h
  have inv := inv_runTrace ht
  refine ⟨⟨st, ht, hall, finish_cancelled scn st r0⟩, ?_, ?_⟩
  · intro hsig
    rw [finish_reason] at hsig
    obtain rfl : r0 = Reason.sig := Option.some.inj hsig
    rw [finish_cancelled]
    exact inv.reasonSigCancel hr0
  · intro e herr
    rw [finish_reason] at herr
    obtain rfl : r0 = Reason.rerr e := Option.some.inj herr
    rw [finish_cancelled]
    exact inv.reasonErrCancel e hr0

/-- C5 witness: on a signal-triggered shutdown, cancellation has been issued
before the cleanup phase starts. -/
theorem c5_cleanup_after_drain_witness :
    ({ exitCode := 0, reason := some Reason.sig, cleanupRuns := 1,
       cancelledBeforeCleanup := true } : RunResult).cancelledBeforeCleanup = true :=
  (c5_cleanup_after_drain
    { runnables := [RunnerSpec.blockUntilCancel none], signalArrives := true,
      cleanup := some none }
    [Ev.sigArrive, Ev.selectTrig Choice.csig, Ev.ret 0 false] _
    (by decide) rfl).2.1 rfl

/-- C6: a run whose reason is the external termination signal exits 0 —
a successful, non-error result — unless the cleanup function fails, in
which case that failure is reported instead (exit 1).  No forced-timeout
condition exists in run.go, so nothing else can override the result. -/
theorem c6_signal_reason_result (scn : Scenario) (evs : List Ev) (r : RunResult)
    (h : Run scn evs = some r) (hsig : r.reason = some Reason.sig) :
    r.exitCode = (if scn.cleanupErrs = true then 1 else 0) := by
  cases hl : scn.runnables with
  | nil =>
    have hrun : Run scn evs = some ⟨0, none, 0, false⟩ := by
      unfold Run
      rw [hl]
    rw [hrun] at h
    obtain rfl := Option.some.inj h
    exact Option.noConfusion hsig
  | cons a l =>
    have hne : scn.runnables ≠ [] := by
      rw [hl]
      simp
    obtain ⟨st, r0, ht, hr0, hall, rfl⟩ := Run_some_inv hne h
    rw [finish_reason] at hsig
    obtain rfl : r0 = Reason.sig := Option.some.inj hsig
    rw [finish_exitCode]
    rfl

/-- C6 witness: a signal-triggered run with a succeeding cleanup exits 0. -/
theorem c6_signal_reason_result_witness :
    ({ exitCode := 0, reason := some Reason.sig, cleanupRuns := 1,
       cancelledBeforeCleanup := true } : RunResult).exitCode =
      (if Scenario.cleanupErrs ⟨[RunnerSpec.blockUntilCancel none], true, some none⟩ = true
        then 1 else 0) :=
  c6_signal_reason_result
    { runnables := [RunnerSpec.blockUntilCancel none], signalArrives := true,
      cleanup := some none }
    [Ev.sigArrive, Ev.selectTrig Choice.csig, Ev.ret 0 false] _ rfl rfl

/-- C7: a runnable that observes cancellation and returns the distinguished
`context.Canceled` outcome is treated as non-fatal.  In any reachable state
of a scenario containing such a runnable (and in which no runnable invents
`context.Canceled` spontaneously), the chosen reason is never
`RunnerFailure(context.Canceled)` — an error the select retains always
originates from a runnable that failed of its own accord — and a completed
run can exit non-zero only because some runnable genuinely failed or the
cleanup function failed, never because of the cancelled outcome. -/
theorem c7_cancelled_outcome_nonfatal (scn : Scenario) (evs : List Ev) (st : St) (i : Nat)
    (h : runTrace scn evs = some st)
    (hi : scn.runnables[i]? = some (RunnerSpec.blockUntilCancel (some GoErr.canceled)))
    (hno : noSpontaneousCancel scn = true) :
    st.reason ≠ some (Reason.rerr GoErr.canceled) ∧
    (∀ r : RunResult, Run scn evs = some r → r.exitCode = 1 →
      scn.cleanupErrs = true ∨
        ∃ (j : Nat) (e : GoErr), scn.runnables[j]? = some (RunnerSpec.fail e)) := by
  have inv := inv_runTrace h
  constructor
  · intro hr
    obtain ⟨j, hj⟩ := inv.reasonFail GoErr.canceled hr
    have hmem := List.getElem?_mem hj
    unfold noSpontaneousCancel at hno
    have := List.all_eq_true.mp hno _ hmem
    simp at this
  · intro r hrun hexit
    have hne : scn.runnables ≠ [] := by
      intro hnil
      rw [hnil] at hi
      exact Option.noConfusion (List.getElem?_nil ▸ hi)
    obtain ⟨st2, r0, ht2, hr0, hall, rfl⟩ := Run_some_inv hne hrun
    rw [finish_exitCode] at hexit
    cases hc : scn.cleanupErrs with
    | true => exact Or.inl rfl
    | false =>
      rw [hc] at hexit
      simp only [Bool.false_eq_true, if_false] at hexit
      obtain ⟨e, rfl⟩ := baseExit_eq_one hexit
      obtain ⟨j, hj⟩ := (inv_runTrace ht2).reasonFail e hr0
      exact Or.inr ⟨j, e, hj⟩

/-- C7 witness: a blocked runnable returning `context.Canceled` after a
signal-triggered cancellation does not become the reason; and in a run with
a genuine failure alongside a cancelled outcome, the non-zero exit traces
back to the genuine failure. -/
theorem c7_cancelled_outcome_nonfatal_witness :
    ({ cancelled := true, returned := [true], sentLog := [GoErr.canceled],
       sigDelivered := true, sigPending := false, reason := some Reason.sig } : St).reason ≠
      some (Reason.rerr GoErr.canceled) ∧
    (Scenario.cleanupErrs ⟨[RunnerSpec.fail (GoErr.msg "x"),
        RunnerSpec.blockUntilCancel (some GoErr.canceled)], false, some none⟩ = true ∨
      ∃ (j : Nat) (e : GoErr),
        (⟨[RunnerSpec.fail (GoErr.msg "x"),
           RunnerSpec.blockUntilCancel (some GoErr.canceled)], false,
          some none⟩ : Scenario).runnables[j]? = some (RunnerSpec.fail e)) := by
  constructor
  · exact (c7_cancelled_outcome_nonfatal
      ⟨[RunnerSpec.blockUntilCancel (some GoErr.canceled)], true, some none⟩
      [Ev.sigArrive, Ev.selectTrig Choice.csig, Ev.ret 0 true]
      { cancelled := true, returned := [true], sentLog := [GoErr.canceled],
        sigDelivered := true, sigPending := false, reason := some Reason.sig }
      0 rfl rfl (by decide)).1
  · exact (c7_cancelled_outcome_nonfatal
      ⟨[RunnerSpec.fail (GoErr.msg "x"),
        RunnerSpec.blockUntilCancel (some GoErr.canceled)], false, some none⟩
      [Ev.ret 0 true, Ev.ret 1 true, Ev.selectTrig Choice.cerr]
      { cancelled := true, returned := [true, true],
        sentLog := [GoErr.msg "x", GoErr.canceled],
        sigDelivered := false, sigPending := false,
        reason := some (Reason.rerr (GoErr.msg "x")) }
      1 rfl rfl (by decide)).2
      ⟨1, some (Reason.rerr (GoErr.msg "x")), 1, true⟩ rfl rfl

/-- C8 counterexample: one runnable returning Success, no signal, but a
configured cleanup function that fails — the run exits 1, not success, so
the claim's unconditional "the orchestration result is success" does not
hold; it needs the cleanup hook to succeed. -/
theorem c8_cleanup_error_defeats_success :
    Run { runnables := [RunnerSpec.ok], signalArrives := false,
          cleanup := some (some (GoErr.msg "cleanup boom")) }
        [Ev.ret 0 false, Ev.selectTrig Choice.cdone] =
      some { exitCode := 1, reason := some Reason.alldone, cleanupRuns := 1,
             cancelledBeforeCleanup := false } ∧
    (Run { runnables := [RunnerSpec.ok], signalArrives := false,
           cleanup := some (some (GoErr.msg "cleanup boom")) }
        [Ev.ret 0 false, Ev.selectTrig Choice.cdone]).map RunResult.exitCode ≠ some 0 :=
  ⟨rfl, by decide⟩

/-- C8 (amended): with zero runnables `Run` exits 0 immediately on every
schedule, skipping even the cleanup call; and for N ≥ 1 runnables that all
return Success with no external signal, every completed run exits 0 with
the all-completed reason, provided the cleanup hook (if any) succeeds. -/
theorem c8_all_success_gives_success :
    (∀ (scn : Scenario) (evs : List Ev), scn.runnables = [] →
      Run scn evs = some ⟨0, none, 0, false⟩) ∧
    (∀ (scn : Scenario) (evs : List Ev) (r : RunResult),
      (∀ sp ∈ scn.runnables, sp = RunnerSpec.ok) → scn.signalArrives = false →
      scn.cleanupErrs = false → Run scn evs = some r →
      r.exitCode = 0 ∧ (r.reason = none ∨ r.reason = some Reason.alldone)) := by
  constructor
  · intro scn evs hl
    unfold Run
    rw [hl]
  · intro scn evs r hok hsig hcl h
    cases hl : scn.runnables with
    | nil =>
      have hrun : Run scn evs = some ⟨0, none, 0, false⟩ := by
        unfold Run
        rw [hl]
      rw [hrun] at h
      obtain rfl := Option.some.inj h
      exact ⟨rfl, Or.inl rfl⟩
    | cons a l =>
      have hne : scn.runnables ≠ [] := by
        rw [hl]
        simp
      obtain ⟨st, r0, ht, hr0, hall, rfl⟩ := Run_some_inv hne h
      have hst : OkSt st :=
        okSt_runFrom hok hsig evs (initSt scn) st ht ⟨rfl, rfl, Or.inl rfl⟩
      obtain ⟨-, -, hcase⟩ := hst
      rcases hcase with hnone | halldone
      · rw [hr0] at hnone
        exact Option.noConfusion hnone
      · rw [hr0] at halldone
        obtain rfl : r0 = Reason.alldone := Option.some.inj halldone
        refine ⟨?_, Or.inr (finish_reason scn st _)⟩
        rw [finish_exitCode, hcl]
        rfl

/-- C8 witness: the zero-runnable run exits 0 immediately, and a run of two
succeeding runnables with a succeeding cleanup exits 0 with the
all-completed reason. -/
theorem c8_all_success_gives_success_witness :
    Run ⟨[], false, some none⟩ [] = some ⟨0, none, 0, false⟩ ∧
    (({ exitCode := 0, reason := some Reason.alldone, cleanupRuns := 1,
        cancelledBeforeCleanup := false } : RunResult).exitCode = 0 ∧
      (({ exitCode := 0, reason := some Reason.alldone, cleanupRuns := 1,
          cancelledBeforeCleanup := false } : RunResult).reason = none ∨
        ({ exitCode := 0, reason := some Reason.alldone, cleanupRuns := 1,
           cancelledBeforeCleanup := false } : RunResult).reason = some Reason.alldone)) := by
  constructor
  · exact c8_all_success_gives_success.1 ⟨[], false, some none⟩ [] rfl
  · exact c8_all_success_gives_success.2 ⟨[RunnerSpec.ok, RunnerSpec.ok], false, some none⟩
      [Ev.ret 0 false, Ev.ret 1 false, Ev.selectTrig Choice.cdone] _
      (by decide) rfl rfl rfl

/-- C9: whenever the configured cleanup function returns a non-nil error,
`EzApp.Run` panics with exactly that error in its deferred cleanup block
instead of returning normally — independently of what any runnable did. -/
theorem c9_cleanup_error_panics (app : EzApp) (e : GoErr)
    (h : app.cleanupRes = some e) :
    (EzApp.Run app).outcome = EzOutcome.panicked e := by
  unfold EzApp.Run
  rw [h]

/-- C9 witness: an app whose single runnable completed successfully still
panics with the cleanup error. -/
theorem c9_cleanup_error_panics_witness :
    (EzApp.Run ⟨[⟨none, none⟩], none, some (GoErr.msg "cleanup failed")⟩).outcome =
      EzOutcome.panicked (GoErr.msg "cleanup failed") :=
  c9_cleanup_error_panics _ _ rfl

/-- Wrapping is the identity exactly on the signed 64-bit range. -/
theorem wrap64_eq_self {z : Int} (h1 : -two63 ≤ z) (h2 : z < two63) : wrap64 z = z := by
  unfold wrap64 two63 at *
  omega

/-- C10 counterexample: `EZAPP_TERM_TIMEOUT=10000000000` parses fine with
`strconv.Atoi`, but `time.Duration(10000000000) * time.Second` overflows
int64 and wraps to a negative duration, so the function does not return
"exactly that integer number of seconds". -/
theorem c10_large_timeout_overflows :
    GetCleanupTimeout (some "10000000000") = -8446744073709551616 ∧
    (-8446744073709551616 : Int) ≠ 10000000000 * 1000000000 := by
  exact ⟨rfl, by decide⟩

/-- C10 (amended): `GetCleanupTimeout` returns 15 seconds when the variable
is unset, empty, or rejected by `strconv.Atoi`; otherwise it returns the
parsed value times one second under wrapping 64-bit multiplication, which
equals exactly that many seconds (including zero and negative values)
whenever the parsed value lies within ±9223372036. -/
theorem c10_timeout_semantics :
    (GetCleanupTimeout none = 15 * 1000000000) ∧
    (GetCleanupTimeout (some "") = 15 * 1000000000) ∧
    (∀ s : String, Atoi s = none → GetCleanupTimeout (some s) = 15 * 1000000000) ∧
    (∀ (s : String) (n : Int), Atoi s = some n →
      GetCleanupTimeout (some s) = wrap64 (n * 1000000000)) ∧
    (∀ (s : String) (n : Int), Atoi s = some n → -9223372036 ≤ n → n ≤ 9223372036 →
      GetCleanupTimeout (some s) = n * 1000000000) := by
  have hbase : ∀ (s : String) (n : Int), Atoi s = some n →
      GetCleanupTimeout (some s) = wrap64 (n * 1000000000) := by
    intro s n h
    have hs : ¬(s = "") := by
      intro hs
      rw [hs] at h
      have hnone : (Atoi "" : Option Int) = none := rfl
      rw [hnone] at h
      exact Option.noConfusion h
    simp only [GetCleanupTimeout, Option.getD_some]
    rw [if_neg hs, h]
  refine ⟨rfl, rfl, ?_, hbase, ?_⟩
  · intro s h
    by_cases hs : s = ""
    · rw [hs]
      rfl
    · simp only [GetCleanupTimeout, Option.getD_some]
      rw [if_neg hs, h]
  · intro s n h h1 h2
    refine (hbase s n h).trans (wrap64_eq_self ?_ ?_)
    · unfold two63
      omega
    · unfold two63
      omega

/-- C10 witness: an unparseable value falls back to 15 seconds; parseable
values within range give exactly that many seconds. -/
theorem c10_timeout_semantics_witness :
    GetCleanupTimeout (some "abc") = 15 * 1000000000 ∧
    GetCleanupTimeout (some "-7") = wrap64 (-7 * 1000000000) ∧
    GetCleanupTimeout (some "30") = 30 * 1000000000 := by
  refine ⟨?_, ?_, ?_⟩
  · exact c10_timeout_semantics.2.2.1 "abc" (by decide)
  · exact c10_timeout_semantics.2.2.2.1 "-7" (-7) (by decide)
  · exact c10_timeout_semantics.2.2.2.2 "30" 30 (by decide) (by decide) (by decide)

end Spec2Proof
